import Mathlib

/-!
Shallow embedding of the consensus core of the thor blockchain node
(VRF committee election, round packer loop, three-chain BFT finality
tracker, fork-aware block repository), together with proofs about the
claims of the natural-language specification.

Conventions used throughout:
- machine integers are modelled as `Nat`, with an explicit `% 2 ^ 64`
  where the Go code works in `uint64` and overflow is possible;
- byte strings are `List Nat` (each entry one byte);
- block identifiers (`thor.Bytes32`) embed the block number in their
  first four bytes, so `block.Number(id)` is a pure function of the id;
  they are modelled by the structure `BlockID` carrying that number and
  an abstract hash component;
- fallible Go functions returning `(T, error)` become `Except` or a
  product with `Option` of an error value; error strings are replaced by
  plain inductive error codes.
-/

set_option maxHeartbeats 1000000

/-! ## Committee election (src/consensus/role.go) -/

/-- Big-endian read of the first eight bytes of a byte string, as in
Go `binary.BigEndian.Uint64(h.Bytes())` applied to a 32-byte hash. -/
def beUint64 (h : List Nat) : Nat :=
  (h.take 8).foldl (fun a b => a * 256 + b % 256) 0

/-- Direct translation of `getCommitteeThreshold` from role.go:
`uint64(math.MaxUint32) / thor.MaxBlockProposers * thor.CommitteeSize *
thor.CommitteeThresholdFactor`, evaluated left to right in `uint64`
arithmetic (hence the single final `% 2 ^ 64`, which agrees with taking
the remainder after every step). The three `thor` constants are not part
of the sources under src/, so they are parameters. -/
def getCommitteeThreshold (maxBlockProposers committeeSize committeeThresholdFactor : Nat) : Nat :=
  4294967295 / maxBlockProposers * committeeSize * committeeThresholdFactor % 18446744073709551616

/-- Direct translation of `IsCommittee` from role.go. The VRF prover
(`sk.Prove`) and the hash (`thor.Blake2b`) are opaque collaborators and
appear as function parameters; the private key is folded into `prove`.
A failing `Prove` propagates its error; otherwise the proof is returned
exactly when the big-endian value of the first eight bytes of the hash
of the proof is at most the committee threshold, and `none` (with no
error) is returned otherwise. -/
def IsCommittee (prove : List Nat → Except Nat (List Nat)) (blake2b : List Nat → List Nat)
    (maxBlockProposers committeeSize committeeThresholdFactor : Nat)
    (seed : List Nat) : Except Nat (Option (List Nat)) :=
  match prove seed with
  | .error e => .error e
  | .ok proof =>
    if beUint64 (blake2b proof) ≤
        getCommitteeThreshold maxBlockProposers committeeSize committeeThresholdFactor then
      .ok (some proof)
    else
      .ok none

/-! ## Packer loop (node package, src/unnamed/part_000) -/

/-- Outcome of one `flow.Adopt(tx)` call, as classified by the `switch`
in `packTxSetAndBlockSummary`: a nil error (transaction adopted),
`packer.IsGasLimitReached`, `packer.IsTxNotAdoptableNow`, or any other
(terminal) error. -/
inductive AdoptResult
  | adopted
  | gasLimitReached
  | notAdoptableNow
  | otherError
deriving DecidableEq

/-- Go semantics of the transaction-adoption loop of
`packTxSetAndBlockSummary` (src/unnamed/part_000, lines 318-335).

The loop iterates over all executables from the pool. Each iteration
first polls the timeout channel with a non-blocking `select`; receiving
the signal only executes a `break` that leaves the `select`, after which
control still falls through to `flow.Adopt(tx)`. The `switch` on the
adoption error likewise uses `break` in the gas-limit branch, which
leaves only the `switch`. Consequently no branch ever exits the `for`
loop early.

Arguments: `adopt` is the (stateful) `flow.Adopt`; `fireAt` is the
iteration index from which the background timer signal is available;
then the flow state, the current iteration index, whether the one-shot
signal has already been consumed, and the remaining transactions.
Returns the final flow state, the list of adopted transactions (nil
adoption error) and `txsToRemove` (adopted or terminally failed). -/
def packTxAdoptLoop {σ : Type} (adopt : σ → Nat → σ × AdoptResult) (fireAt : Nat) :
    σ → Nat → Bool → List Nat → σ × List Nat × List Nat
  | st, _, _, [] => (st, [], [])
  | st, i, consumed, t :: rest =>
    let consumed2 := consumed || decide (fireAt ≤ i)
    let a := adopt st t
    let r := packTxAdoptLoop adopt fireAt a.1 (i + 1) consumed2 rest
    match a.2 with
    | .gasLimitReached => (r.1, r.2.1, r.2.2)
    | .notAdoptableNow => (r.1, r.2.1, r.2.2)
    | .adopted => (r.1, t :: r.2.1, t :: r.2.2)
    | .otherError => (r.1, r.2.1, t :: r.2.2)

/-- A concrete gas-budget instance of `flow.Adopt` used to evaluate the
loop: the state is the remaining gas, a transaction is adopted when its
gas fits and otherwise reports the gas limit reached. -/
def gasAdopt : Nat → Nat → Nat × AdoptResult :=
  fun gasLeft t => if t ≤ gasLeft then (gasLeft - t, .adopted) else (gasLeft, .gasLimitReached)

/-- What becomes of the process after a quorum-packed block: either a
panic (fatal) or continued operation, remembering whether the staged
state commit had failed. -/
inductive PackerOutcome
  | fatal (code : Nat)
  | completed (stageCommitFailed : Bool)
deriving DecidableEq

/-- Direct translation of the post-quorum tail of `packerLoop`
(src/unnamed/part_000, lines 272-299): a failing `stage.Commit()` is
only logged (`errLog`) and execution continues; a failing
`n.commitBlock` panics, which is the only fatal outcome. -/
def afterQuorumPack (stageCommit : Except Nat Unit) (commitBlock : Except Nat Unit) :
    PackerOutcome :=
  let stageFailed := match stageCommit with
    | .error _ => true
    | .ok _ => false
  match commitBlock with
  | .error e => .fatal e
  | .ok _ => .completed stageFailed

/-! ## Three-chain BFT finality tracker (package bft)

The implementation of `Consensus.Update` is not among the sources under
src/ (only its tests, src/unnamed/part_002, are), so the tracker is
modelled from the specification, section 4.4. -/

/-- The five tracked block identities `{NV, PP, PC, CM, FN}` of one
observer. Identities are abstract block ids (`Nat`, with `0` playing the
role of the all-zero `thor.Bytes32`); the block number of an id is given
by a separate function `num`, mirroring `block.Number`. -/
structure FinState where
  nv : Nat
  pp : Nat
  pc : Nat
  cm : Nat
  fn : Nat
deriving DecidableEq

/-- The header fields of a newly accepted head block that the tracker
reads: its own id, its NV field (the view anchor) and its CM field (the
certified-block identity observed in the header). -/
structure HeadInfo where
  id : Nat
  nv : Nat
  cm : Nat
deriving DecidableEq

/-- Sum of a list of endorsement-signature counts. -/
def listSum : List Nat → Nat
  | [] => 0
  | x :: rest => x + listSum rest

/-- Modelled from the spec: `Consensus.Update` of the bft package is
absent from src/. Following specification section 4.4 and the in-src
test TestCM (src/unnamed/part_002):
- the head header carries an observed CM; a newer observed CM (by block
  number) is taken over, a stale one is rejected (rule 4: CM/FN only
  ever advance, stale overwrites are no-ops);
- if the view anchored at the head NV has quorum (accumulated
  endorsement-signature count at least the committee size), the
  certificates shift: NV to the head id, PP to old NV, PC to old PP, CM
  to old PC and, when the old CM is non-zero, FN to old CM — each CM/FN
  write again guarded by rule 4;
- otherwise only NV is set, to the head NV field.
`viewSigs` lists the endorsement-signature counts of the blocks of the
view for the chain ending at the head. -/
def Update (num : Nat → Nat) (committeeSize : Nat) (s : FinState) (head : HeadInfo)
    (viewSigs : List Nat) : FinState :=
  let cm0 := if num s.cm < num head.cm then head.cm else s.cm
  if committeeSize ≤ listSum viewSigs then
    { nv := head.id
      pp := s.nv
      pc := s.pp
      cm := if num cm0 ≤ num s.pc then s.pc else cm0
      fn := if cm0 ≠ 0 ∧ num s.fn ≤ num cm0 then cm0 else s.fn }
  else
    { s with nv := head.nv, cm := cm0 }

/-- An ordered sequence of `Update` calls by a single observer. -/
def runUpdates (num : Nat → Nat) (committeeSize : Nat) (s : FinState)
    (steps : List (HeadInfo × List Nat)) : FinState :=
  match steps with
  | [] => s
  | step :: rest => runUpdates num committeeSize (Update num committeeSize s step.1 step.2) rest

/-! ## Epoch numbering (package consensus)

The implementation of `EpochNumber` is absent from src/; only the test
`TestEpochNumber` (src/consensus/role_test.go) is present. -/

/-- Error sentinel `errTimestamp` of the consensus package. -/
inductive ConsErr
  | timestamp
deriving DecidableEq

/-- Modelled from the spec: the consensus `EpochNumber` implementation
is absent from src/. Reconstructed from the epoch-boundary bullet of
specification section 8 together with the in-src assertions of
`TestEpochNumber` (src/consensus/role_test.go, lines 78-122), which the
spec wording partially contradicts and which force this shape: a
timestamp before the launch time is an error; otherwise the round number
is `(t - launchTime) / blockInterval` and the epoch number is 0 for
round 0 and `(round - 1) / epochInterval + 1` for positive rounds.
`launchTime` is the genesis timestamp; `blockInterval` and
`epochInterval` are the `thor` package constants (parameters here). -/
def EpochNumber (launchTime blockInterval epochInterval t : Nat) : Except ConsErr Nat :=
  if t < launchTime then .error ConsErr.timestamp
  else
    let round := (t - launchTime) / blockInterval
    if round = 0 then .ok 0 else .ok ((round - 1) / epochInterval + 1)

/-! ## Fork-aware block repository (src/chain/repository.go) -/

/-- A block identity: `thor.Bytes32` with the block number embedded in
the first four bytes (`block.Number(id)` reads it), plus the rest of the
content hash, abstracted to a `Nat`. -/
structure BlockID where
  num : Nat
  hash : Nat
deriving DecidableEq

/-- The all-zero `thor.Bytes32`. -/
def zeroID : BlockID := ⟨0, 0⟩

/-- The header fields the repository logic reads: the block id and the
parent id. -/
structure HeaderM where
  id : BlockID
  parent : BlockID
deriving DecidableEq

/-- A block as handed to `AddBlock`: header, transactions (a transaction
is identified with its id, a `Nat`), aggregated backer signatures and
the serialized size. -/
structure BlockM where
  header : HeaderM
  txs : List Nat
  bss : Nat
  size : Nat
deriving DecidableEq

/-- `chain.BlockSummary`: header, index root, ordered transaction-id
list, serialized size. -/
structure BlockSummary where
  header : HeaderM
  indexRoot : Nat
  txIds : List Nat
  size : Nat
deriving DecidableEq

/-- The persistent contents of the repository data store, split by
record kind exactly as the Go key space is (`txInfix` and
`receiptInfix` records are keyed by block id and index; backer
signatures, summaries and branch heads by block id). Newer writes are
prepended, and lookups return the newest record for a key. -/
structure RepoState where
  summaries : List (BlockID × BlockSummary)
  txRecords : List ((BlockID × Nat) × Nat)
  receiptRecords : List ((BlockID × Nat) × Nat)
  bssRecords : List (BlockID × Nat)
  branchHeads : List (BlockID × BlockID)
deriving DecidableEq

/-- Newest-first association lookup (the read path of the store; the
`GetOrLoad` caches are read-through and do not change observable
results, so they are not modelled separately). -/
def alookup {α β : Type} [DecidableEq α] : List (α × β) → α → Option β
  | [], _ => none
  | e :: rest, k => if e.1 = k then some e.2 else alookup rest k

/-- Write a run of indexed records `(id, i0) ↦ xs[0], (id, i0+1) ↦
xs[1], ...`, newest prepended, mirroring the `key.SetIndex(i)` loops of
`saveBlock`. -/
def putIndexed (id : BlockID) : List Nat → Nat → List ((BlockID × Nat) × Nat) →
    List ((BlockID × Nat) × Nat)
  | [], _, st => st
  | x :: rest, i, st => putIndexed id rest (i + 1) (((id, i), x) :: st)

/-- Direct translation of `saveBlock` (repository.go, lines 146-185):
one atomic batch writing, when the block has transactions, a record per
transaction and per receipt, then always the backer signatures and the
block summary (whose `Txs` list collects the transaction ids). Receipts
are only written when the transaction list is non-empty, exactly as in
the source. -/
def saveBlock (s : RepoState) (b : BlockM) (receipts : List Nat) (indexRoot : Nat) : RepoState :=
  { summaries := (b.header.id, ⟨b.header, indexRoot, b.txs, b.size⟩) :: s.summaries
    txRecords :=
      if 0 < b.txs.length then putIndexed b.header.id b.txs 0 s.txRecords else s.txRecords
    receiptRecords :=
      if 0 < b.txs.length then putIndexed b.header.id receipts 0 s.receiptRecords
      else s.receiptRecords
    bssRecords := (b.header.id, b.bss) :: s.bssRecords
    branchHeads := s.branchHeads }

/-- Errors surfaced by `AddBlock`: the `parent missing` sentinel, or a
propagated failure of `indexBlock` (any other storage fault). -/
inductive RErr
  | parentMissing
  | indexFailed (code : Nat)
deriving DecidableEq

/-- Direct translation of `AddBlock` (repository.go, lines 188-213):
look up the parent summary (a miss is the `parent missing` error, which
leaves the store untouched), compute the new index root layered on the
parent root (`indexBlock` is not under src/ and is an opaque parameter;
its failure propagates with the store untouched), persist the block via
`saveBlock`, then write the branch-head record: the new id maps to the
parent id when the parent was itself a recognized branch head and to the
zero id otherwise. -/
def AddBlock (indexBlock : Nat → BlockM → Except Nat Nat) (s : RepoState) (b : BlockM)
    (receipts : List Nat) : RepoState × Option RErr :=
  match alookup s.summaries b.header.parent with
  | none => (s, some RErr.parentMissing)
  | some parentSummary =>
    match indexBlock parentSummary.indexRoot b with
    | .error e => (s, some (RErr.indexFailed e))
    | .ok indexRoot =>
      let s1 := saveBlock s b receipts indexRoot
      let prev :=
        if (alookup s1.branchHeads b.header.parent).isSome then b.header.parent else zeroID
      ({ s1 with branchHeads := (b.header.id, prev) :: s1.branchHeads }, none)

/-- Modelled from the spec: `Chain.GetBlockID` (the chain package file
is absent from src/). The chain identified by its head is walked from
the head through parent links down to the requested block number — the
index-root structure of the source answers the same query without the
walk. Termination is by the explicit fuel, instantiated with the head
number by callers. A missing summary on the way, or a number above the
head, is a not-found error (code 0). -/
def GetBlockID (s : RepoState) : Nat → BlockID → Nat → Except Nat BlockID
  | 0, head, n => if head.num = n then .ok head else .error 0
  | fuel + 1, head, n =>
    if head.num = n then .ok head
    else if head.num < n then .error 0
    else
      match alookup s.summaries head with
      | none => .error 0
      | some sum => GetBlockID s fuel sum.header.parent n

/-- Modelled from the spec: `Chain.HasBlock` (absent from src/) — the
chain ending at `head` contains `target` exactly when the block of the
chain at number `target.num` is `target` itself. -/
def HasBlock (s : RepoState) (head target : BlockID) : Except Nat Bool :=
  match GetBlockID s head.num head target.num with
  | .ok found => .ok (decide (found = target))
  | .error e => .error e

/-- Direct translation of `IfConflict` (repository.go, lines 376-417):
a missing summary of either block yields `(false, none)` (the not-found
error is swallowed); identical ids never conflict; distinct ids of equal
number always conflict; otherwise the lower block conflicts with the
higher one exactly when it is not on the chain ending at the higher one
(a `HasBlock` failure surfaces as `(true, error)`). -/
def IfConflict (s : RepoState) (b1 b2 : BlockID) : Bool × Option Nat :=
  if (alookup s.summaries b1).isNone then (false, none)
  else if (alookup s.summaries b2).isNone then (false, none)
  else if b1 = b2 then (false, none)
  else if b1.num = b2.num then (true, none)
  else
    match HasBlock s (if b2.num < b1.num then b1 else b2)
        (if b2.num < b1.num then b2 else b1) with
    | .error e => (true, some e)
    | .ok ok => (!ok, none)

/-- `a` lies on the chain ending at `b` (ancestor, or `b` itself). -/
def ancestorOrSelf (s : RepoState) (a b : BlockID) : Bool :=
  match GetBlockID s b.num b a.num with
  | .ok found => decide (found = a)
  | .error _ => false

/-- Executable well-formedness of a repository state, the invariant
`AddBlock` maintains: every indexed summary carries its own id, and
every non-genesis block has its parent indexed with the parent number
one below its own (block ids embed their numbers). -/
def wfB (s : RepoState) : Bool :=
  s.summaries.all fun e =>
    match alookup s.summaries e.1 with
    | none => true
    | some sum =>
      decide (sum.header.id = e.1) &&
      (decide (e.1.num = 0) ||
        (decide (sum.header.parent.num + 1 = e.1.num) &&
          (alookup s.summaries sum.header.parent).isSome))

/-! ## Concrete evaluation instances for witnesses -/

/-- A one-block (genesis only) repository store: genesis id `⟨0, 1⟩`
with index root 0 and no transactions. -/
def genesisRepo : RepoState :=
  ⟨[(⟨0, 1⟩, ⟨⟨⟨0, 1⟩, zeroID⟩, 0, [], 0⟩)], [], [], [], []⟩

/-- A sample block extending the genesis of `genesisRepo`: id `⟨1, 2⟩`,
one transaction with id 7, backer-signature blob 5, size 9. -/
def sampleBlock : BlockM := ⟨⟨⟨1, 2⟩, ⟨0, 1⟩⟩, [7], 5, 9⟩

/-- A sample index-root computation layering one step on the parent
root. -/
def sampleIndexBlock : Nat → BlockM → Except Nat Nat := fun root _ => .ok (root + 1)

/-- A four-block repository store: genesis `g = ⟨0, 1⟩` with the two
children `a = ⟨1, 2⟩` and `b = ⟨1, 3⟩`, and `c = ⟨2, 4⟩` the child of
`a` — so `a` is an ancestor of `c`, while `b` diverges from both. -/
def forkRepo : RepoState :=
  ⟨[(⟨0, 1⟩, ⟨⟨⟨0, 1⟩, zeroID⟩, 0, [], 0⟩),
    (⟨1, 2⟩, ⟨⟨⟨1, 2⟩, ⟨0, 1⟩⟩, 1, [], 0⟩),
    (⟨1, 3⟩, ⟨⟨⟨1, 3⟩, ⟨0, 1⟩⟩, 2, [], 0⟩),
    (⟨2, 4⟩, ⟨⟨⟨2, 4⟩, ⟨1, 2⟩⟩, 3, [], 0⟩)], [], [], [], []⟩

/-! # Theorems -/

/-- Sanity example: the committee threshold for concrete constants. -/
theorem getCommitteeThreshold_example : getCommitteeThreshold 101 33 2 = 2806612248 := by
  decide

/-- Claim C3: for every private key and 32-byte seed, `IsCommittee`
computes the VRF proof over the seed and returns that proof exactly when
the hash of the proof, read as a big-endian unsigned integer, is at most
the threshold `T = floor(MaxUint32 / MaxBlockProposers) * CommitteeSize
* CommitteeThresholdFactor`; when the hash value exceeds `T` it returns
no proof and no error. Stated for every prover and hash function, under
the hypotheses that the VRF proof computation succeeds, that
`MaxBlockProposers` is positive (the Go division would otherwise panic)
and that the threshold product does not overflow `uint64`. -/
theorem IsCommittee_returns_proof_iff_below_threshold
    (prove : List Nat → Except Nat (List Nat)) (blake2b : List Nat → List Nat)
    (mbp cs ctf : Nat) (seed p : List Nat)
    (hp : prove seed = .ok p)
    (hmbp : 0 < mbp)
    (hov : 4294967295 / mbp * cs * ctf < 18446744073709551616) :
    (IsCommittee prove blake2b mbp cs ctf seed = .ok (some p) ↔
      beUint64 (blake2b p) ≤ 4294967295 / mbp * cs * ctf)
    ∧ (4294967295 / mbp * cs * ctf < beUint64 (blake2b p) →
      IsCommittee prove blake2b mbp cs ctf seed = .ok none) := by
  have hth : getCommitteeThreshold mbp cs ctf = 4294967295 / mbp * cs * ctf :=
    Nat.mod_eq_of_lt hov
  have hred : IsCommittee prove blake2b mbp cs ctf seed =
      if beUint64 (blake2b p) ≤ 4294967295 / mbp * cs * ctf then .ok (some p) else .ok none := by
    rw [IsCommittee, hp, hth]
  rw [hred]
  by_cases hle : beUint64 (blake2b p) ≤ 4294967295 / mbp * cs * ctf
  · rw [if_pos hle]
    exact ⟨⟨fun _ => hle, fun _ => rfl⟩, fun h => absurd hle (by omega)⟩
  · rw [if_neg hle]
    refine ⟨⟨fun h => ?_, fun h => absurd h hle⟩, fun _ => rfl⟩
    exact absurd (Option.some_ne_none p (Except.ok.inj h).symm) (fun hf => hf)

/-- Witness for C3 at concrete inputs: a constant prover and a constant
hash whose first eight bytes read as 9, which is below the threshold
2806612248 for the constants 101, 33, 2. -/
theorem IsCommittee_returns_proof_iff_below_threshold_witness :
    (fun _ : List Nat => (Except.ok [3] : Except Nat (List Nat))) [] = .ok [3]
    ∧ 0 < 101
    ∧ 4294967295 / 101 * 33 * 2 < 18446744073709551616
    ∧ ((IsCommittee (fun _ => .ok [3]) (fun _ => [0, 0, 0, 0, 0, 0, 0, 9]) 101 33 2 []
          = .ok (some [3]) ↔
        beUint64 ((fun _ : List Nat => [0, 0, 0, 0, 0, 0, 0, 9]) [3])
          ≤ 4294967295 / 101 * 33 * 2)
      ∧ (4294967295 / 101 * 33 * 2 < beUint64 ((fun _ : List Nat => [0, 0, 0, 0, 0, 0, 0, 9]) [3]) →
        IsCommittee (fun _ => .ok [3]) (fun _ => [0, 0, 0, 0, 0, 0, 0, 9]) 101 33 2 []
          = .ok none)) :=
  ⟨rfl, by omega, by decide,
    IsCommittee_returns_proof_iff_below_threshold (fun _ => .ok [3])
      (fun _ => [0, 0, 0, 0, 0, 0, 0, 9]) 101 33 2 [] [3] rfl (by omega) (by decide)⟩

/-- Claim C6 (code bug evidence): with a remaining gas budget of 3, the
first executable transaction (gas 5) makes `flow.Adopt` report the gas
limit reached, yet the loop of `packTxSetAndBlockSummary` goes on and
adopts the second transaction (gas 1): the `break` in the gas-limit
branch only leaves the `switch`, so adoption does not stop. -/
theorem adoptLoop_adopts_after_gasLimitReached :
    gasAdopt 3 5 = (3, AdoptResult.gasLimitReached)
    ∧ packTxAdoptLoop gasAdopt 1000 3 0 false [5, 1] = (2, [1], [1]) := by
  exact ⟨by decide, by decide⟩

/-- Claim C7 (code bug evidence): even when the adoption timer has
already fired before the first iteration (`fireAt = 0`), every candidate
transaction is still adopted: receiving from the timeout channel only
executes a `break` out of the `select`, after which the loop body still
calls `flow.Adopt` and keeps iterating. -/
theorem adoptLoop_adopts_after_timeout :
    packTxAdoptLoop (fun (u : Unit) (_ : Nat) => (u, AdoptResult.adopted)) 0 () 0 false [1, 2, 3]
      = ((), [1, 2, 3], [1, 2, 3]) := by
  decide

/-- Claim C8 (code bug evidence): when `stage.Commit()` fails after the
endorsement quorum was reached and the block packed, `packerLoop` merely
logs the error and continues (it goes on to commit and broadcast the
block); the run is not fatal — only a `commitBlock` failure panics. -/
theorem stageCommitFailure_not_fatal :
    afterQuorumPack (.error 7) (.ok ()) = .completed true
    ∧ ∀ code : Nat, afterQuorumPack (.error 7) (.ok ()) ≠ .fatal code := by
  exact ⟨rfl, fun code h => PackerOutcome.noConfusion h⟩

/-- Claim C1: for a head fed to the tracker in parent-before-child order
by a single observer — so that the tracked certificates are ordered by
block number (`num fn ≤ num cm ≤ num pc`) and the CM observed in the
head header does not exceed the tracked CM — `Update` shifts the
certificates (`NV` to the head id, `PP` to old `NV`, `PC` to old `PP`,
`CM` to old `PC`, and `FN` to old `CM` exactly when old `CM` is
non-zero) when the view anchored at the head NV has quorum (accumulated
endorsement-signature count at least the committee size), and sets only
`NV`, to the head NV field, when the view lacks quorum. -/
theorem Update_quorum_shifts_else_tracks_nv (num : Nat → Nat) (cs : Nat) (s : FinState)
    (head : HeadInfo) (viewSigs : List Nat)
    (hfn : num s.fn ≤ num s.cm) (hcm : num s.cm ≤ num s.pc) (hobs : num head.cm ≤ num s.cm) :
    (cs ≤ listSum viewSigs →
      Update num cs s head viewSigs =
        ⟨head.id, s.nv, s.pp, s.pc, if s.cm ≠ 0 then s.cm else s.fn⟩)
    ∧ (¬ cs ≤ listSum viewSigs →
      Update num cs s head viewSigs = { s with nv := head.nv }) := by
  have hc : ¬ num s.cm < num head.cm := by omega
  constructor
  · intro hq
    simp only [Update, if_neg hc, if_pos hq, if_pos hcm]
    by_cases hz : s.cm = 0
    · rw [if_neg (by simp [hz]), if_neg (by simp [hz])]
    · rw [if_pos ⟨hz, hfn⟩, if_pos hz]
  · intro hq
    simp only [Update, if_neg hc, if_neg hq]

/-- Witness for C1 at a concrete ordered state, with the identity as the
block-number function, committee size 2 and a two-signature view. -/
theorem Update_quorum_shifts_else_tracks_nv_witness :
    (1 : Nat) ≤ 2 ∧ (2 : Nat) ≤ 3 ∧ (2 : Nat) ≤ 2
    ∧ ((2 ≤ listSum [1, 1] →
        Update (fun n => n) 2 ⟨5, 4, 3, 2, 1⟩ ⟨6, 9, 2⟩ [1, 1] =
          ⟨6, 5, 4, 3, if (2 : Nat) ≠ 0 then 2 else 1⟩)
      ∧ (¬ 2 ≤ listSum [1, 1] →
        Update (fun n => n) 2 ⟨5, 4, 3, 2, 1⟩ ⟨6, 9, 2⟩ [1, 1] =
          { FinState.mk 5 4 3 2 1 with nv := 9 })) :=
  ⟨by omega, by omega, by omega,
    Update_quorum_shifts_else_tracks_nv (fun n => n) 2 ⟨5, 4, 3, 2, 1⟩ ⟨6, 9, 2⟩ [1, 1]
      (by decide) (by decide) (by decide)⟩

/-- Claim C2 counterexample: an update whose observed CM (the head
header CM field, here the zero id of number 0) is older than the tracked
CM (id 1, number 1) does NOT leave CM and FN unchanged: from the state
`⟨4, 3, 2, 1, 0⟩` — reachable from the all-zero genesis state by four
quorum updates along one chain — a quorum update legitimately shifts CM
to the old PC (id 2) and FN to the old CM (id 1). Only the stale
overwrite itself is rejected; the claim as stated is false. -/
theorem Update_stale_observed_cm_not_unchanged :
    (HeadInfo.mk 5 5 0).cm < (FinState.mk 4 3 2 1 0).cm
    ∧ Update (fun n => n) 1 ⟨4, 3, 2, 1, 0⟩ ⟨5, 5, 0⟩ [2] = ⟨5, 4, 3, 2, 1⟩
    ∧ (Update (fun n => n) 1 ⟨4, 3, 2, 1, 0⟩ ⟨5, 5, 0⟩ [2]).cm ≠ (FinState.mk 4 3 2 1 0).cm
    ∧ (Update (fun n => n) 1 ⟨4, 3, 2, 1, 0⟩ ⟨5, 5, 0⟩ [2]).fn ≠ (FinState.mk 4 3 2 1 0).fn := by
  exact ⟨by decide, by decide, by decide, by decide⟩

/-- Helper for C2: a single `Update` never decreases the block number of
the tracked CM. -/
theorem Update_cm_mono (num : Nat → Nat) (cs : Nat) (s : FinState) (head : HeadInfo)
    (viewSigs : List Nat) : num s.cm ≤ num (Update num cs s head viewSigs).cm := by
  by_cases h1 : num s.cm < num head.cm <;>
    by_cases h2 : cs ≤ listSum viewSigs <;>
      simp only [Update, h1, h2, if_true, if_false, ite_true, ite_false] <;>
        first
          | (split <;> omega)
          | omega

/-- Helper for C2: a single `Update` never decreases the block number of
the tracked FN. -/
theorem Update_fn_mono (num : Nat → Nat) (cs : Nat) (s : FinState) (head : HeadInfo)
    (viewSigs : List Nat) : num s.fn ≤ num (Update num cs s head viewSigs).fn := by
  by_cases h1 : num s.cm < num head.cm <;>
    by_cases h2 : cs ≤ listSum viewSigs <;>
      simp only [Update, h1, h2, if_true, if_false, ite_true, ite_false] <;>
        first
          | (split <;> omega)
          | omega

/-- Helper for C2: CM block numbers never decrease across any ordered
sequence of updates. -/
theorem runUpdates_cm_mono (num : Nat → Nat) (cs : Nat) (steps : List (HeadInfo × List Nat)) :
    ∀ s : FinState, num s.cm ≤ num (runUpdates num cs s steps).cm := by
  induction steps with
  | nil => intro s; exact Nat.le_refl _
  | cons step rest ih =>
    intro s
    exact Nat.le_trans (Update_cm_mono num cs s step.1 step.2) (ih _)

/-- Helper for C2: FN block numbers never decrease across any ordered
sequence of updates. -/
theorem runUpdates_fn_mono (num : Nat → Nat) (cs : Nat) (steps : List (HeadInfo × List Nat)) :
    ∀ s : FinState, num s.fn ≤ num (runUpdates num cs s steps).fn := by
  induction steps with
  | nil => intro s; exact Nat.le_refl _
  | cons step rest ih =>
    intro s
    exact Nat.le_trans (Update_fn_mono num cs s step.1 step.2) (ih _)

/-- Claim C2, amended: across any ordered sequence of updates by a
single observer the block numbers of the tracked CM and FN never
decrease; an update whose observed CM (the head header CM field) is
older than the tracked CM never sets CM to that stale value — the stale
overwrite is rejected — and, when the view of such an update also lacks
quorum, CM and FN are left exactly unchanged (a quorum shift may still
legitimately advance CM and FN during such an update). -/
theorem Update_cm_fn_never_regress (num : Nat → Nat) (cs : Nat) (s : FinState)
    (head : HeadInfo) (viewSigs : List Nat) (steps : List (HeadInfo × List Nat))
    (hstale : num head.cm < num s.cm) :
    num s.cm ≤ num (runUpdates num cs s steps).cm
    ∧ num s.fn ≤ num (runUpdates num cs s steps).fn
    ∧ (Update num cs s head viewSigs).cm ≠ head.cm
    ∧ (¬ cs ≤ listSum viewSigs →
        (Update num cs s head viewSigs).cm = s.cm ∧ (Update num cs s head viewSigs).fn = s.fn) := by
  have hc : ¬ num s.cm < num head.cm := by omega
  refine ⟨runUpdates_cm_mono num cs steps s, runUpdates_fn_mono num cs steps s, ?_, fun hq => ?_⟩
  · intro heq
    have hmono := Update_cm_mono num cs s head viewSigs
    rw [heq] at hmono
    omega
  · constructor <;> simp [Update, hc, hq]

/-- Witness for C2 amended, at the counterexample state: the observed CM
of number 0 is older than the tracked CM of number 1; monotonicity holds
along a two-step sequence, the stale value is never adopted, and the
no-quorum exactness implication is instantiated (vacuously, the view has
quorum here). -/
theorem Update_cm_fn_never_regress_witness :
    (0 : Nat) < 1
    ∧ ((1 : Nat) ≤ (runUpdates (fun n => n) 1 ⟨4, 3, 2, 1, 0⟩ [(⟨5, 5, 0⟩, [2]), (⟨6, 6, 0⟩, [])]).cm
      ∧ (0 : Nat) ≤ (runUpdates (fun n => n) 1 ⟨4, 3, 2, 1, 0⟩ [(⟨5, 5, 0⟩, [2]), (⟨6, 6, 0⟩, [])]).fn
      ∧ (Update (fun n => n) 1 ⟨4, 3, 2, 1, 0⟩ ⟨5, 5, 0⟩ [2]).cm ≠ 0
      ∧ (¬ 1 ≤ listSum [2] →
          (Update (fun n => n) 1 ⟨4, 3, 2, 1, 0⟩ ⟨5, 5, 0⟩ [2]).cm = 1
          ∧ (Update (fun n => n) 1 ⟨4, 3, 2, 1, 0⟩ ⟨5, 5, 0⟩ [2]).fn = 0)) :=
  ⟨by omega,
    Update_cm_fn_never_regress (fun n => n) 1 ⟨4, 3, 2, 1, 0⟩ ⟨5, 5, 0⟩ [2]
      [(⟨5, 5, 0⟩, [2]), (⟨6, 6, 0⟩, [])] (by decide)⟩

/-- Helper for C9: `(m * d - 1) / d = m - 1` for positive `m` and `d`. -/
theorem mul_pred_div (m d : Nat) (hd : 0 < d) (hm : 0 < m) : (m * d - 1) / d = m - 1 := by
  obtain ⟨m2, rfl⟩ : ∃ m2, m = m2 + 1 := ⟨m - 1, by omega⟩
  have h1 : (m2 + 1) * d - 1 = d - 1 + d * m2 := by
    have h2 : (m2 + 1) * d = m2 * d + 1 * d := Nat.add_mul m2 1 d
    have h3 : m2 * d = d * m2 := Nat.mul_comm m2 d
    omega
  rw [h1, Nat.add_mul_div_left _ _ hd, Nat.div_eq_of_lt (by omega)]
  omega

/-- Claim C9 counterexample: at `t = genesisTimestamp + blockInterval`
(concretely launch 1000, block interval 10, epoch interval 180, t 1010)
the premise `genesisTimestamp < t ≤ genesisTimestamp + blockInterval` of
the claim holds, yet `EpochNumber` returns epoch 1, not epoch 0 as the
claim states — matching the third assertion of the in-src
`TestEpochNumber`. -/
theorem EpochNumber_at_first_interval_boundary :
    1000 < 1010 ∧ 1010 ≤ 1000 + 10
    ∧ EpochNumber 1000 10 180 1010 = .ok 1 := by
  exact ⟨by omega, by omega, rfl⟩

/-- Claim C9, amended: `EpochNumber` errors for every `t` below the
genesis (launch) timestamp; returns epoch 0 exactly for
`launch ≤ t < launch + blockInterval`; and for every `k ≥ 1` the epoch
equals `k` at the boundary `launch + blockInterval * k * epochInterval`
and throughout the following block interval, incrementing to `k + 1`
only at `launch + blockInterval * (k * epochInterval + 1)` — one full
block interval after the boundary, not at the first timestamp strictly
after it. -/
theorem EpochNumber_boundaries (launch bi ei t k : Nat)
    (hbi : 0 < bi) (hei : 0 < ei) (hk : 0 < k) :
    (t < launch → EpochNumber launch bi ei t = .error ConsErr.timestamp)
    ∧ (launch ≤ t → t - launch < bi → EpochNumber launch bi ei t = .ok 0)
    ∧ EpochNumber launch bi ei (launch + bi * (k * ei)) = .ok k
    ∧ EpochNumber launch bi ei (launch + bi * (k * ei) + (bi - 1)) = .ok k
    ∧ EpochNumber launch bi ei (launch + bi * (k * ei + 1)) = .ok (k + 1) := by
  have hkei : 0 < k * ei := Nat.mul_pos hk hei
  refine ⟨fun h => ?_, fun h1 h2 => ?_, ?_, ?_, ?_⟩
  · rw [EpochNumber, if_pos h]
  · rw [EpochNumber, if_neg (by omega)]
    simp [Nat.div_eq_of_lt h2]
  · rw [EpochNumber, if_neg (by omega)]
    have hr : (launch + bi * (k * ei) - launch) / bi = k * ei := by
      rw [Nat.add_sub_cancel_left, Nat.mul_div_cancel_left _ hbi]
    simp only [hr]
    rw [if_neg (by omega), mul_pred_div k ei hei hk]
    have : k - 1 + 1 = k := by omega
    rw [this]
  · rw [EpochNumber, if_neg (by omega)]
    have hr : (launch + bi * (k * ei) + (bi - 1) - launch) / bi = k * ei := by
      have he : launch + bi * (k * ei) + (bi - 1) - launch = (k * ei + 1) * bi - 1 := by
        have h2 : (k * ei + 1) * bi = k * ei * bi + 1 * bi := Nat.add_mul _ 1 bi
        have h3 : k * ei * bi = bi * (k * ei) := Nat.mul_comm _ bi
        omega
      rw [he, mul_pred_div (k * ei + 1) bi hbi (by omega)]
      omega
    simp only [hr]
    rw [if_neg (by omega), mul_pred_div k ei hei hk]
    have : k - 1 + 1 = k := by omega
    rw [this]
  · rw [EpochNumber, if_neg (by omega)]
    have hr : (launch + bi * (k * ei + 1) - launch) / bi = k * ei + 1 := by
      rw [Nat.add_sub_cancel_left, Nat.mul_div_cancel_left _ hbi]
    simp only [hr]
    rw [if_neg (by omega)]
    have h4 : k * ei + 1 - 1 = ei * k := by
      rw [Nat.mul_comm ei k]; omega
    rw [h4, Nat.mul_div_cancel_left _ hei]

/-- Witness for C9 amended at launch 1000, block interval 10, epoch
interval 3, t 1005, k 2: epoch 0 just after launch; epoch 2 at the
second boundary 1060 and still at 1069; epoch 3 at 1070. -/
theorem EpochNumber_boundaries_witness :
    1005 < 1000 + 10 ∧ (0 : Nat) < 10 ∧ (0 : Nat) < 3 ∧ (0 : Nat) < 2
    ∧ ((1005 < 1000 → EpochNumber 1000 10 3 1005 = .error ConsErr.timestamp)
      ∧ (1000 ≤ 1005 → 1005 - 1000 < 10 → EpochNumber 1000 10 3 1005 = .ok 0)
      ∧ EpochNumber 1000 10 3 (1000 + 10 * (2 * 3)) = .ok 2
      ∧ EpochNumber 1000 10 3 (1000 + 10 * (2 * 3) + (10 - 1)) = .ok 2
      ∧ EpochNumber 1000 10 3 (1000 + 10 * (2 * 3 + 1)) = .ok (2 + 1)) :=
  ⟨by omega, by omega, by omega, by omega,
    EpochNumber_boundaries 1000 10 3 1005 2 (by omega) (by omega) (by omega)⟩

/-- Validation of the spec-modelled `EpochNumber` against every row of
the in-src `TestEpochNumber` (src/consensus/role_test.go, lines 78-122),
for any launch time and any block and epoch intervals in range
(`blockInterval ≥ 2`, as the actual constant 10 is). -/
theorem EpochNumber_matches_TestEpochNumber (launch bi ei : Nat)
    (hl : 0 < launch) (hbi : 2 ≤ bi) (hei : 0 < ei) :
    EpochNumber launch bi ei (launch - 1) = .error ConsErr.timestamp
    ∧ EpochNumber launch bi ei (launch + 1) = .ok 0
    ∧ EpochNumber launch bi ei (launch + bi) = .ok 1
    ∧ EpochNumber launch bi ei (launch + bi * ei) = .ok 1
    ∧ EpochNumber launch bi ei (launch + bi * ei + 1) = .ok 1
    ∧ EpochNumber launch bi ei (launch + bi * (ei + 1)) = .ok 2 := by
  refine ⟨?_, ?_, ?_, ?_, ?_, ?_⟩
  · rw [EpochNumber, if_pos (by omega)]
  · rw [EpochNumber, if_neg (by omega)]
    have hr : 1 / bi = 0 := Nat.div_eq_of_lt (by omega)
    simp [hr]
  · rw [EpochNumber, if_neg (by omega)]
    have hr : (launch + bi - launch) / bi = 1 := by
      rw [Nat.add_sub_cancel_left, Nat.div_self (by omega)]
    simp only [hr]
    rw [if_neg (by omega)]
    simp [Nat.div_eq_of_lt hei]
  · rw [EpochNumber, if_neg (by omega)]
    have hr : (launch + bi * ei - launch) / bi = ei := by
      rw [Nat.add_sub_cancel_left, Nat.mul_div_cancel_left _ (by omega : 0 < bi)]
    simp only [hr]
    rw [if_neg (by omega), Nat.div_eq_of_lt (by omega : ei - 1 < ei)]
  · rw [EpochNumber, if_neg (by omega)]
    have hr : (launch + bi * ei + 1 - launch) / bi = ei := by
      have he : launch + bi * ei + 1 - launch = 1 + bi * ei := by omega
      rw [he, Nat.add_mul_div_left _ _ (by omega : 0 < bi), Nat.div_eq_of_lt (by omega)]
      omega
    simp only [hr]
    rw [if_neg (by omega), Nat.div_eq_of_lt (by omega : ei - 1 < ei)]
  · rw [EpochNumber, if_neg (by omega)]
    have hr : (launch + bi * (ei + 1) - launch) / bi = ei + 1 := by
      rw [Nat.add_sub_cancel_left, Nat.mul_div_cancel_left _ (by omega : 0 < bi)]
    simp only [hr]
    rw [if_neg (by omega)]
    have h4 : ei + 1 - 1 = ei := by omega
    rw [h4, Nat.div_self hei]

/-- Helper: a successful association lookup comes from a list entry. -/
theorem alookup_mem {α β : Type} [DecidableEq α] :
    ∀ (l : List (α × β)) (k : α) (v : β), alookup l k = some v → (k, v) ∈ l := by
  intro l
  induction l with
  | nil => intro k v h; exact Option.noConfusion h
  | cons e rest ih =>
    intro k v h
    obtain ⟨a, b⟩ := e
    simp only [alookup] at h
    by_cases heq : a = k
    · rw [if_pos heq] at h
      injection h with hv
      subst heq
      subst hv
      exact List.mem_cons_self _ _
    · rw [if_neg heq] at h
      exact List.mem_cons_of_mem _ (ih k v h)

/-- Helper: records written by `putIndexed` start at index `i0`, so a
key with a smaller index reads through to the previous store. -/
theorem putIndexed_lookup_lt (id : BlockID) :
    ∀ (xs : List Nat) (i0 : Nat) (st : List ((BlockID × Nat) × Nat)) (j : Nat), j < i0 →
      alookup (putIndexed id xs i0 st) (id, j) = alookup st (id, j) := by
  intro xs
  induction xs with
  | nil => intro i0 st j h; rfl
  | cons x rest ih =>
    intro i0 st j h
    simp only [putIndexed]
    rw [ih (i0 + 1) _ j (by omega)]
    simp only [alookup]
    rw [if_neg (by intro hk; injection hk with hk1 hk2; omega)]

/-- Helper: each element written by `putIndexed` is found at its key. -/
theorem putIndexed_lookup (id : BlockID) :
    ∀ (xs : List Nat) (i0 : Nat) (st : List ((BlockID × Nat) × Nat)) (j x : Nat),
      xs[j]? = some x →
      alookup (putIndexed id xs i0 st) (id, i0 + j) = some x := by
  intro xs
  induction xs with
  | nil => intro i0 st j x h; simp at h
  | cons y rest ih =>
    intro i0 st j x h
    cases j with
    | zero =>
      have hy : y = x := by simpa using h
      subst hy
      rw [Nat.add_zero]
      simp only [putIndexed]
      rw [putIndexed_lookup_lt id rest (i0 + 1) _ i0 (by omega)]
      simp [alookup]
    | succ j2 =>
      have h2 : rest[j2]? = some x := by simpa using h
      simp only [putIndexed]
      rw [show i0 + (j2 + 1) = (i0 + 1) + j2 by omega]
      exact ih (i0 + 1) (((id, i0), y) :: st) j2 x h2

/-- Claim C4: `AddBlock` on a block whose parent summary is not indexed
fails with the `parent missing` error and leaves the store untouched, so
no record of the block is observable; when the parent is indexed (and
the index-root computation succeeds), the call succeeds and the summary,
backer signatures, branch head, every transaction record and every
receipt record of the block are all observable in the resulting store —
in the source they are written as one atomic batch. Stated under the
hypothesis that the receipts list matches the transaction list in
length, as every caller guarantees. -/
theorem AddBlock_parentMissing_or_persists_all (indexBlock : Nat → BlockM → Except Nat Nat)
    (s : RepoState) (b : BlockM) (receipts : List Nat)
    (hlen : receipts.length = b.txs.length) :
    (alookup s.summaries b.header.parent = none →
      AddBlock indexBlock s b receipts = (s, some RErr.parentMissing))
    ∧ (∀ ps root, alookup s.summaries b.header.parent = some ps →
        indexBlock ps.indexRoot b = .ok root →
        ∃ s2, AddBlock indexBlock s b receipts = (s2, none)
          ∧ alookup s2.summaries b.header.id = some ⟨b.header, root, b.txs, b.size⟩
          ∧ alookup s2.bssRecords b.header.id = some b.bss
          ∧ (alookup s2.branchHeads b.header.id).isSome = true
          ∧ (∀ j x, b.txs[j]? = some x → alookup s2.txRecords (b.header.id, j) = some x)
          ∧ (∀ j x, receipts[j]? = some x →
              alookup s2.receiptRecords (b.header.id, j) = some x)) := by
  constructor
  · intro h
    rw [AddBlock, h]
  · intro ps root hps hroot
    have hadd : AddBlock indexBlock s b receipts =
        ({ saveBlock s b receipts root with
            branchHeads :=
              (b.header.id,
                if (alookup s.branchHeads b.header.parent).isSome then b.header.parent
                else zeroID) :: s.branchHeads }, none) := by
      simp only [AddBlock, hps, hroot]
      rfl
    refine ⟨_, hadd, ?_, ?_, ?_, ?_, ?_⟩
    · simp [saveBlock, alookup]
    · simp [saveBlock, alookup]
    · simp [alookup]
    · intro j x hx
      have hj : j < b.txs.length := by
        by_contra hj
        rw [List.getElem?_eq_none (by omega)] at hx
        exact Option.noConfusion hx
      show alookup (saveBlock s b receipts root).txRecords (b.header.id, j) = some x
      simp only [saveBlock]
      rw [if_pos (by omega)]
      have h2 := putIndexed_lookup b.header.id b.txs 0 s.txRecords j x hx
      rw [Nat.zero_add] at h2
      exact h2
    · intro j x hx
      have hj : j < receipts.length := by
        by_contra hj
        rw [List.getElem?_eq_none (by omega)] at hx
        exact Option.noConfusion hx
      show alookup (saveBlock s b receipts root).receiptRecords (b.header.id, j) = some x
      simp only [saveBlock]
      rw [if_pos (by omega)]
      have h2 := putIndexed_lookup b.header.id receipts 0 s.receiptRecords j x hx
      rw [Nat.zero_add] at h2
      exact h2

/-- Witness for C4: adding `sampleBlock` (one transaction, one receipt)
on top of `genesisRepo`, whose genesis is the parent, with a succeeding
index-root computation. The extra final conjuncts evaluate the parent
lookup and the index computation, showing the success branch applies. -/
theorem AddBlock_parentMissing_or_persists_all_witness :
    [8].length = sampleBlock.txs.length
    ∧ ((alookup genesisRepo.summaries sampleBlock.header.parent = none →
        AddBlock sampleIndexBlock genesisRepo sampleBlock [8] =
          (genesisRepo, some RErr.parentMissing))
      ∧ (∀ ps root, alookup genesisRepo.summaries sampleBlock.header.parent = some ps →
          sampleIndexBlock ps.indexRoot sampleBlock = .ok root →
          ∃ s2, AddBlock sampleIndexBlock genesisRepo sampleBlock [8] = (s2, none)
            ∧ alookup s2.summaries sampleBlock.header.id =
                some ⟨sampleBlock.header, root, sampleBlock.txs, sampleBlock.size⟩
            ∧ alookup s2.bssRecords sampleBlock.header.id = some sampleBlock.bss
            ∧ (alookup s2.branchHeads sampleBlock.header.id).isSome = true
            ∧ (∀ j x, sampleBlock.txs[j]? = some x →
                alookup s2.txRecords (sampleBlock.header.id, j) = some x)
            ∧ (∀ j x, [8][j]? = some x →
                alookup s2.receiptRecords (sampleBlock.header.id, j) = some x)))
    ∧ alookup genesisRepo.summaries sampleBlock.header.parent = some ⟨⟨⟨0, 1⟩, zeroID⟩, 0, [], 0⟩
    ∧ sampleIndexBlock 0 sampleBlock = .ok 1 :=
  ⟨rfl,
    AddBlock_parentMissing_or_persists_all sampleIndexBlock genesisRepo sampleBlock [8] rfl,
    rfl, rfl⟩

/-- Claim C10: if the block summary of either argument is not found in
the repository, `IfConflict` returns `false` together with no error —
the not-found condition is swallowed, not propagated to the caller. -/
theorem IfConflict_notFound_swallowed (s : RepoState) (b1 b2 : BlockID)
    (h : alookup s.summaries b1 = none ∨ alookup s.summaries b2 = none) :
    IfConflict s b1 b2 = (false, none) := by
  rcases h with h | h
  · rw [IfConflict, if_pos (by rw [h]; rfl)]
  · by_cases hn1 : (alookup s.summaries b1).isNone = true
    · rw [IfConflict, if_pos hn1]
    · rw [IfConflict, if_neg hn1, if_pos (by rw [h]; rfl)]

/-- Witness for C10: a block id absent from `genesisRepo` against the
genesis id. -/
theorem IfConflict_notFound_swallowed_witness :
    (alookup genesisRepo.summaries ⟨5, 9⟩ = none ∨ alookup genesisRepo.summaries ⟨0, 1⟩ = none)
    ∧ IfConflict genesisRepo ⟨5, 9⟩ ⟨0, 1⟩ = (false, none) :=
  ⟨Or.inl (by decide), IfConflict_notFound_swallowed genesisRepo ⟨5, 9⟩ ⟨0, 1⟩ (Or.inl (by decide))⟩

/-- Helper: unpack the executable well-formedness `wfB` into its
per-lookup statement. -/
theorem wf_spec {s : RepoState} (hwf : wfB s = true) :
    ∀ id sum, alookup s.summaries id = some sum →
      sum.header.id = id ∧
      (id.num = 0 ∨ (sum.header.parent.num + 1 = id.num ∧
        (alookup s.summaries sum.header.parent).isSome = true)) := by
  intro id sum h
  have hmem : (id, sum) ∈ s.summaries := alookup_mem _ _ _ h
  have hall := List.all_eq_true.mp hwf (id, sum) hmem
  simp only [h] at hall
  simpa using hall

/-- Helper: a chain walk always finds its own head at the head number. -/
theorem GetBlockID_self (s : RepoState) (fuel : Nat) (head : BlockID) :
    GetBlockID s fuel head head.num = .ok head := by
  cases fuel with
  | zero => simp [GetBlockID]
  | succ f => simp [GetBlockID]

/-- Helper: a successful chain walk returns a block of the requested
number, and that number is at most the head number. -/
theorem GetBlockID_ok_num (s : RepoState) :
    ∀ (fuel : Nat) (head r : BlockID) (n : Nat),
      GetBlockID s fuel head n = .ok r → r.num = n ∧ n ≤ head.num := by
  intro fuel
  induction fuel with
  | zero =>
    intro head r n h
    simp only [GetBlockID] at h
    by_cases he : head.num = n
    · rw [if_pos he] at h
      injection h with h2
      subst h2
      exact ⟨he, by omega⟩
    · rw [if_neg he] at h
      exact Except.noConfusion h
  | succ f ih =>
    intro head r n h
    simp only [GetBlockID] at h
    by_cases he : head.num = n
    · rw [if_pos he] at h
      injection h with h2
      subst h2
      exact ⟨he, by omega⟩
    · rw [if_neg he] at h
      by_cases hlt : head.num < n
      · rw [if_pos hlt] at h
        exact Except.noConfusion h
      · rw [if_neg hlt] at h
        cases hs : alookup s.summaries head with
        | none => rw [hs] at h; exact Except.noConfusion h
        | some sum =>
          rw [hs] at h
          obtain ⟨hr1, hr2⟩ := ih sum.header.parent r n h
          exact ⟨hr1, by omega⟩

/-- Helper: on a well-formed repository the chain walk from an indexed
head down to any number at most the head number succeeds, given fuel at
least the distance. -/
theorem GetBlockID_total {s : RepoState} (hwf : wfB s = true) :
    ∀ (fuel : Nat) (head : BlockID) (n : Nat),
      (alookup s.summaries head).isSome = true → n ≤ head.num → head.num ≤ n + fuel →
      ∃ r, GetBlockID s fuel head n = .ok r := by
  intro fuel
  induction fuel with
  | zero =>
    intro head n hh hn1 hn2
    have he : head.num = n := by omega
    exact ⟨head, by simp [GetBlockID, he]⟩
  | succ f ih =>
    intro head n hh hn1 hn2
    by_cases he : head.num = n
    · exact ⟨head, by simp [GetBlockID, he]⟩
    · obtain ⟨sum, hsum⟩ : ∃ sum, alookup s.summaries head = some sum := by
        cases hs : alookup s.summaries head with
        | none => rw [hs] at hh; simp at hh
        | some v => exact ⟨v, rfl⟩
      have hpr := wf_spec hwf head sum hsum
      have hpar : sum.header.parent.num + 1 = head.num ∧
          (alookup s.summaries sum.header.parent).isSome = true := by
        rcases hpr.2 with h0 | hp
        · omega
        · exact hp
      obtain ⟨r, hr⟩ := ih sum.header.parent n hpar.2 (by omega) (by omega)
      refine ⟨r, ?_⟩
      simp only [GetBlockID]
      rw [if_neg he, if_neg (by omega), hsum]
      exact hr

/-- Claim C5: for two blocks both present in a well-formed repository
(the invariant `AddBlock` maintains): `IfConflict` returns false (with
no error) when the ids are identical and when one block lies on the
chain of the other (one is an ancestor of the other, or they are equal);
it returns true (with no error) when the blocks lie on divergent
branches (neither is an ancestor-or-self of the other); in particular
two distinct blocks with the same block number always conflict. -/
theorem IfConflict_divergent_branches (s : RepoState) (b1 b2 : BlockID)
    (hwf : wfB s = true)
    (h1 : (alookup s.summaries b1).isSome = true)
    (h2 : (alookup s.summaries b2).isSome = true) :
    (b1 = b2 → IfConflict s b1 b2 = (false, none))
    ∧ (ancestorOrSelf s b1 b2 = true ∨ ancestorOrSelf s b2 b1 = true →
        IfConflict s b1 b2 = (false, none))
    ∧ (b1 ≠ b2 → ancestorOrSelf s b1 b2 = false → ancestorOrSelf s b2 b1 = false →
        IfConflict s b1 b2 = (true, none))
    ∧ (b1 ≠ b2 → b1.num = b2.num → IfConflict s b1 b2 = (true, none)) := by
  have hn1 : ¬((alookup s.summaries b1).isNone = true) := by
    cases ho : alookup s.summaries b1 with
    | none => rw [ho] at h1; simp at h1
    | some v => simp
  have hn2 : ¬((alookup s.summaries b2).isNone = true) := by
    cases ho : alookup s.summaries b2 with
    | none => rw [ho] at h2; simp at h2
    | some v => simp
  have heqcase : b1 = b2 → IfConflict s b1 b2 = (false, none) := by
    intro heq
    rw [IfConflict, if_neg hn1, if_neg hn2, if_pos heq]
  have hsamenum : b1 ≠ b2 → b1.num = b2.num → IfConflict s b1 b2 = (true, none) := by
    intro hne hnum
    rw [IfConflict, if_neg hn1, if_neg hn2, if_neg hne, if_pos hnum]
  refine ⟨heqcase, ?_, ?_, hsamenum⟩
  · intro haos
    by_cases heq : b1 = b2
    · exact heqcase heq
    · rcases haos with haos | haos
      · -- b1 lies on the chain of b2
        have hga : GetBlockID s b2.num b2 b1.num = .ok b1 := by
          rw [ancestorOrSelf] at haos
          cases hg : GetBlockID s b2.num b2 b1.num with
          | error e => rw [hg] at haos; simp at haos
          | ok found =>
            rw [hg] at haos
            simp only [decide_eq_true_eq] at haos
            rw [haos]
        have hnum : b1.num ≠ b2.num := by
          intro hb
          have hself := GetBlockID_self s b2.num b2
          rw [hb] at hga
          have := hself.symm.trans hga
          injection this with hbb
          exact heq hbb.symm
        have hlow : b1.num < b2.num := by
          have := (GetBlockID_ok_num s b2.num b2 b1 b1.num hga).2
          omega
        have hhb : HasBlock s b2 b1 = .ok true := by
          rw [HasBlock]
          rw [hga]
          simp
        rw [IfConflict, if_neg hn1, if_neg hn2, if_neg heq, if_neg hnum,
          if_neg (by omega : ¬ b2.num < b1.num), if_neg (by omega : ¬ b2.num < b1.num), hhb]
        rfl
      · -- b2 lies on the chain of b1
        have hga : GetBlockID s b1.num b1 b2.num = .ok b2 := by
          rw [ancestorOrSelf] at haos
          cases hg : GetBlockID s b1.num b1 b2.num with
          | error e => rw [hg] at haos; simp at haos
          | ok found =>
            rw [hg] at haos
            simp only [decide_eq_true_eq] at haos
            rw [haos]
        have hnum : b1.num ≠ b2.num := by
          intro hb
          have hself := GetBlockID_self s b1.num b1
          rw [← hb] at hga
          have := hself.symm.trans hga
          injection this with hbb
          exact heq hbb
        have hlow : b2.num < b1.num := by
          have := (GetBlockID_ok_num s b1.num b1 b2 b2.num hga).2
          omega
        have hhb : HasBlock s b1 b2 = .ok true := by
          rw [HasBlock]
          rw [hga]
          simp
        rw [IfConflict, if_neg hn1, if_neg hn2, if_neg heq, if_neg hnum,
          if_pos hlow, if_pos hlow, hhb]
        rfl
  · intro hne haos12 haos21
    by_cases hnum : b1.num = b2.num
    · exact hsamenum hne hnum
    · by_cases hgt : b2.num < b1.num
      · -- b1 is the higher block; walk its chain down to b2.num
        obtain ⟨r, hr⟩ := GetBlockID_total hwf b1.num b1 b2.num h1 (by omega) (by omega)
        have hrb : ¬(r = b2) := by
          intro hrb
          rw [ancestorOrSelf, hr] at haos21
          simp [hrb] at haos21
        have hhb : HasBlock s b1 b2 = .ok false := by
          rw [HasBlock]
          rw [hr]
          simp [hrb]
        rw [IfConflict, if_neg hn1, if_neg hn2, if_neg hne, if_neg hnum,
          if_pos hgt, if_pos hgt, hhb]
        rfl
      · have hlt : b1.num < b2.num := by omega
        obtain ⟨r, hr⟩ := GetBlockID_total hwf b2.num b2 b1.num h2 (by omega) (by omega)
        have hrb : ¬(r = b1) := by
          intro hrb
          rw [ancestorOrSelf, hr] at haos12
          simp [hrb] at haos12
        have hhb : HasBlock s b2 b1 = .ok false := by
          rw [HasBlock]
          rw [hr]
          simp [hrb]
        rw [IfConflict, if_neg hn1, if_neg hn2, if_neg hne, if_neg hnum,
          if_neg hgt, if_neg hgt, hhb]
        rfl

/-- Witness for C5 on `forkRepo`, instantiated at `a = ⟨1, 2⟩` and its
child `c = ⟨2, 4⟩` (an ancestor pair). -/
theorem IfConflict_divergent_branches_witness :
    wfB forkRepo = true
    ∧ (alookup forkRepo.summaries ⟨1, 2⟩).isSome = true
    ∧ (alookup forkRepo.summaries ⟨2, 4⟩).isSome = true
    ∧ ((⟨1, 2⟩ : BlockID) = ⟨2, 4⟩ → IfConflict forkRepo ⟨1, 2⟩ ⟨2, 4⟩ = (false, none))
    ∧ (ancestorOrSelf forkRepo ⟨1, 2⟩ ⟨2, 4⟩ = true ∨ ancestorOrSelf forkRepo ⟨2, 4⟩ ⟨1, 2⟩ = true →
        IfConflict forkRepo ⟨1, 2⟩ ⟨2, 4⟩ = (false, none))
    ∧ ((⟨1, 2⟩ : BlockID) ≠ ⟨2, 4⟩ → ancestorOrSelf forkRepo ⟨1, 2⟩ ⟨2, 4⟩ = false →
        ancestorOrSelf forkRepo ⟨2, 4⟩ ⟨1, 2⟩ = false →
        IfConflict forkRepo ⟨1, 2⟩ ⟨2, 4⟩ = (true, none))
    ∧ ((⟨1, 2⟩ : BlockID) ≠ ⟨2, 4⟩ → (⟨1, 2⟩ : BlockID).num = (⟨2, 4⟩ : BlockID).num →
        IfConflict forkRepo ⟨1, 2⟩ ⟨2, 4⟩ = (true, none)) := by
  have h := IfConflict_divergent_branches forkRepo ⟨1, 2⟩ ⟨2, 4⟩ (by decide) (by decide) (by decide)
  exact ⟨by decide, by decide, by decide, h.1, h.2.1, h.2.2.1, h.2.2.2⟩
